import Mathlib

/-!
Verification of the incident-conversation correlation and summarization
pipeline of the teams-copilot bot (src/bot.py).

The pipeline is embedded shallowly:
* `MessageRecord` mirrors the JSON message objects stored in
  group_messages.json.
* Pure helpers (`extract_incident_ids`, `record_group_message`,
  `get_recent_conversation_messages`, `get_incident_related_messages`,
  `analyze_conversation_for_incident`, `generate_llm_summary`,
  `send_user_summary_to_target_api`,
  `check_and_send_llm_incident_summary`) are translated directly from the
  Python source.  External effects (the LLM calls and the HTTP POST) are
  modelled by explicit oracle arguments carrying the outcome the external
  world would produce; the functions' observable behaviour (return values,
  cache updates, the request they issue) is computed from those oracles
  exactly as the Python code computes it from the real responses.
* Python's stable `list.sort` is modelled by `List.insertionSort`
  (a stable sort; stable sorts by a total preorder key agree pointwise).
-/

/-! ## String utilities mirroring the Python string operations used -/

/-- Embedding of Python's `needle in haystack` substring test. -/
def strContains (haystack needle : String) : Bool :=
  decide (needle.data <:+: haystack.data)

/-- Embedding of Python's `str.lower()` (ASCII case folding). -/
def lowerStr (s : String) : String :=
  String.mk (s.data.map Char.toLower)

/-- Embedding of Python's `str.strip()`: drop whitespace at both ends. -/
def trimStr (s : String) : String :=
  String.mk (((s.data.dropWhile Char.isWhitespace).reverse.dropWhile
    Char.isWhitespace).reverse)

/-- Lexicographic comparison of two character lists, mirroring Python's
string ordering (code-point lexicographic `<=`). -/
def charListLe : List Char → List Char → Bool
  | [], _ => true
  | _ :: _, [] => false
  | a :: as, b :: bs =>
    if a < b then true else if b < a then false else charListLe as bs

/-- `charListLe` is total. -/
theorem charListLe_total (x y : List Char) :
    charListLe x y = true ∨ charListLe y x = true := by
  induction x generalizing y with
  | nil => exact Or.inl rfl
  | cons a as ih =>
    cases y with
    | nil => exact Or.inr rfl
    | cons b bs =>
      rcases lt_trichotomy a b with h | h | h
      · left; simp [charListLe, h]
      · subst h
        rcases ih bs with h2 | h2 <;>
          simp [charListLe, lt_irrefl, h2]
      · right; simp [charListLe, h]

/-- `charListLe` is transitive. -/
theorem charListLe_trans {x y z : List Char}
    (hxy : charListLe x y = true) (hyz : charListLe y z = true) :
    charListLe x z = true := by
  induction x generalizing y z with
  | nil => rfl
  | cons a as ih =>
    cases y with
    | nil => simp [charListLe] at hxy
    | cons b bs =>
      cases z with
      | nil => simp [charListLe] at hyz
      | cons c cs =>
        simp only [charListLe] at hxy hyz ⊢
        by_cases hab : a < b
        · by_cases hbc : b < c
          · have : a < c := lt_trans hab hbc
            simp [this]
          · by_cases hcb : c < b
            · simp [hab, hbc, hcb] at hyz
            · have hbceq : b = c := le_antisymm (not_lt.mp hcb) (not_lt.mp hbc)
              subst hbceq
              simp [hab]
        · by_cases hba : b < a
          · simp [hab, hba] at hxy
          · have habeq : a = b := le_antisymm (not_lt.mp hba) (not_lt.mp hab)
            subst habeq
            by_cases hac : a < c
            · simp [hac]
            · by_cases hca : c < a
              · simp [hac, hca] at hyz
              · simp [hab, hba] at hxy
                simp [hac, hca] at hyz ⊢
                exact ih hxy hyz

/-! ## Data model -/

/-- A stored group-chat message, as built in `record_group_message`
(`bot.py`): keys timestamp, user_name, user_id, message, conversation_id,
recorded_at, type. -/
structure MessageRecord where
  timestamp : String
  user_name : String
  user_id : String
  message : String
  conversation_id : String
  recorded_at : String
  type : String
deriving DecidableEq, Repr

/-- Ascending timestamp order used by
`conversation_messages.sort(key=lambda x: x.get('timestamp', ''))`. -/
def tsLe (a b : MessageRecord) : Prop :=
  charListLe a.timestamp.data b.timestamp.data = true

/-- Descending timestamp order used by
`conversation_messages.sort(key=..., reverse=True)`. -/
def tsGe (a b : MessageRecord) : Prop :=
  charListLe b.timestamp.data a.timestamp.data = true

instance : DecidableRel tsLe := fun _ _ =>
  inferInstanceAs (Decidable (_ = true))

instance : DecidableRel tsGe := fun _ _ =>
  inferInstanceAs (Decidable (_ = true))

instance : IsTotal MessageRecord tsLe :=
  ⟨fun a b => charListLe_total a.timestamp.data b.timestamp.data⟩

instance : IsTrans MessageRecord tsLe :=
  ⟨fun _ _ _ h1 h2 => charListLe_trans h1 h2⟩

instance : IsTotal MessageRecord tsGe :=
  ⟨fun a b => charListLe_total b.timestamp.data a.timestamp.data⟩

instance : IsTrans MessageRecord tsGe :=
  ⟨fun _ _ _ h1 h2 => charListLe_trans h2 h1⟩

/-- Bot-sender test used throughout `bot.py`:
`'bot' in user_name.lower() or 'teams-copilot' in user_name.lower()`. -/
def isBot (user_name : String) : Bool :=
  strContains (lowerStr user_name) ("bot") ||
    strContains (lowerStr user_name) ("teams-copilot")

/-! ## Message Recorder (`record_group_message`, storage part) -/

/-- Storage step of `record_group_message` (bot.py lines 1228-1247):
append the new record to the flat log, then, if the record's conversation
now holds more than 100 records, keep only that conversation's most recent
100 (`conversation_messages[-100:]`), re-appended after all records of the
other conversations. -/
def record_group_message (log : List MessageRecord)
    (message_record : MessageRecord) : List MessageRecord :=
  let all_messages := log ++ [message_record]
  let conversation_messages := all_messages.filter
    (fun m => m.conversation_id == message_record.conversation_id)
  if 100 < conversation_messages.length then
    (all_messages.filter
      (fun m => !(m.conversation_id == message_record.conversation_id))) ++
      conversation_messages.drop (conversation_messages.length - 100)
  else
    all_messages

/-- Folding `record_group_message` over a sequence of appends, starting
from the empty log (the `FileNotFoundError` case of the Python code). -/
def recordMany (rs : List MessageRecord) : List MessageRecord :=
  rs.foldl record_group_message []

/-! ## Conversation Window Reader (`get_recent_conversation_messages`) -/

/-- Embedding of `get_recent_conversation_messages` (bot.py lines
931-952): filter the log to the conversation, sort by timestamp
descending (Python's stable sort with `reverse=True`), take the first
`count` (default 15 at the call sites), and reverse back to chronological
order. -/
def get_recent_conversation_messages (log : List MessageRecord)
    (conversation_id : String) (count : Nat) : List MessageRecord :=
  let conversation_messages := log.filter
    (fun m => m.conversation_id == conversation_id)
  let sortedDesc := conversation_messages.insertionSort tsGe
  (sortedDesc.take count).reverse

/-! ## Incident Message Aggregator (`get_incident_related_messages`) -/

/-- Mention test of the aggregator: the lower-cased record text contains
the lower-cased incident id as a substring. -/
def mentionsIncident (incident_id : String) (m : MessageRecord) : Bool :=
  strContains (lowerStr m.message) (lowerStr incident_id)

/-- Embedding of `get_incident_related_messages` (bot.py lines 954-994):
filter the log to the conversation, sort by timestamp ascending, find the
first record mentioning the incident id (case-insensitive substring); if
none, fall back to the last 20 records (`max(0, len - 20)`); from that
start index onward keep only non-bot records. -/
def get_incident_related_messages (log : List MessageRecord)
    (incident_id conversation_id : String) : List MessageRecord :=
  let conversation_messages := log.filter
    (fun m => m.conversation_id == conversation_id)
  let sorted := conversation_messages.insertionSort tsLe
  let incident_start_index :=
    match sorted.findIdx? (mentionsIncident incident_id) with
    | some i => i
    | none => sorted.length - 20
  (sorted.drop incident_start_index).filter (fun m => !isBot m.user_name)

/-! ## Incident Context Classifier (`analyze_conversation_for_incident`) -/

/-- Structured LLM output for incident-context analysis (the pydantic
model `IncidentContext` in bot.py). -/
structure IncidentContext where
  incident_id : String
  is_incident_related : Bool
  confidence : Int
deriving DecidableEq, Repr

/-- Embedding of `analyze_conversation_for_incident` (bot.py lines
865-929).  The LLM call is an oracle: `Except.error` models any raised
exception (caught and mapped to `none`), `Except.ok` its structured
result.  The decision policy is the Python `if` chain, with Python
truthiness of `result.incident_id` being non-emptiness. -/
def analyze_conversation_for_incident (recent_messages : List MessageRecord)
    (llm : Except String IncidentContext) : Option String :=
  if recent_messages.isEmpty then none
  else
    match llm with
    | Except.error _ => none
    | Except.ok result =>
      if result.is_incident_related && decide (7 ≤ result.confidence) &&
          !(result.incident_id == "") then
        some result.incident_id
      else if result.is_incident_related && (result.incident_id == "") then
        some ("UNKNOWN_INCIDENT")
      else
        none

/-! ## Summary Generator (`generate_llm_summary`) -/

/-- Python `messages[-3:]` and friends: the last `n` elements. -/
def lastN {α : Type} (n : Nat) (l : List α) : List α :=
  l.drop (l.length - n)

/-- The `" ".join(msg.get('message', '') for msg in messages[-3:])` text
inspected by the exception-path fallback of `generate_llm_summary`. -/
def recentMessagesText (messages : List MessageRecord) : String :=
  String.intercalate (" ") ((lastN 3 messages).map (fun m => m.message))

/-- Embedding of `generate_llm_summary` (bot.py lines 1120-1200).  The
LLM call is an oracle; `Except.error` models a raised exception.  On a
successful call the stripped response is kept unless shorter than 30
characters, in which case a fixed template is substituted; on an
exception a template chosen from the last three message texts is
substituted.  Every template mentions the incident id and the message
count. -/
def generate_llm_summary (incident_id : String)
    (messages : List MessageRecord) (llm : Except String String) : String :=
  if messages.isEmpty then ("No conversation found for ") ++ incident_id
  else
    match llm with
    | Except.ok content =>
      let summary := trimStr content
      if summary.data.length < 30 then
        ("Team discussed ") ++ incident_id ++ (" resolution with ") ++
          (toString messages.length) ++
          (" messages. Users collaborated on troubleshooting, identified synchronization issues, and implemented data reprocessing fix. Root cause was traced to holiday detection bug in the application.")
      else
        summary
    | Except.error _ =>
      if 3 ≤ messages.length then
        let recent := lowerStr (recentMessagesText messages)
        if strContains recent ("fix") || strContains recent ("resolve") then
          ("Users discussed ") ++ incident_id ++ (" resolution with ") ++
            (toString messages.length) ++
            (" recent messages. Team worked on implementing fixes and troubleshooting steps for the incident.")
        else if strContains recent ("issue") || strContains recent ("problem") then
          ("Users discussed ") ++ incident_id ++ (" with ") ++
            (toString messages.length) ++
            (" messages focusing on issue analysis and problem identification.")
        else
          ("Team discussed ") ++ incident_id ++ (" with ") ++
            (toString messages.length) ++
            (" messages covering incident progress and resolution activities.")
      else
        ("Users discussed ") ++ incident_id ++ (" with ") ++
          (toString messages.length) ++
          (" messages. Team worked on troubleshooting and resolution steps for the incident.")

/-! ## Summary Publisher (`send_user_summary_to_target_api`) -/

/-- Outcome of the HTTP POST, as the surrounding `try` observes it:
a response with a status code and a flag saying whether its body could be
read as JSON (`await response.json()` raises on a non-JSON body, and that
exception is caught by the generic handler), a connection error
(`aiohttp.ClientConnectorError`), a timeout (`asyncio.TimeoutError`), or
any other exception. -/
inductive HttpOutcome where
  | response : Nat → Bool → HttpOutcome
  | connectionError : HttpOutcome
  | timedOut : HttpOutcome
  | otherError : String → HttpOutcome
deriving DecidableEq, Repr

/-- The single HTTP request `send_user_summary_to_target_api` issues. -/
structure HttpRequest where
  url : String
  body_incident_id : String
  body_summary : String
  contentType : String
  timeoutSeconds : Nat
deriving DecidableEq, Repr

/-- The request built by `send_user_summary_to_target_api` (bot.py lines
809-851): POST to the fixed summary endpoint, JSON body with exactly the
two fields, 30-second total timeout. -/
def summaryRequest (incident_id conversation_summary : String) : HttpRequest :=
  { url := "http://localhost:8092/summary"
    body_incident_id := incident_id
    body_summary := conversation_summary
    contentType := "application/json"
    timeoutSeconds := 30 }

/-- Embedding of `send_user_summary_to_target_api` (bot.py lines
809-851): returns `true` only on a 200 response whose body reads as JSON;
a non-200 status, a 200 response with an unreadable body, a connection
error, a timeout, or any other exception all return `false`.  The
function is total (never raises) and issues exactly one request
(never retries). -/
def send_user_summary_to_target_api (incident_id conversation_summary : String)
    (outcome : HttpOutcome) : Bool :=
  match outcome with
  | HttpOutcome.response status bodyReadsAsJson =>
    if status == 200 then bodyReadsAsJson else false
  | HttpOutcome.connectionError => false
  | HttpOutcome.timedOut => false
  | HttpOutcome.otherError _ => false

/-! ## Summary Trigger (`check_and_send_llm_incident_summary`) -/

/-- The in-memory `incident_user_message_cache`: incident id to the
message count at the last successful summary (`defaultdict(int)` read
through `.get(detected_incident, 0)`, so every id defaults to 0). -/
def Cache : Type := String → Nat

/-- Cache write `incident_user_message_cache[detected_incident] = n`. -/
def updateCache (cache : Cache) (incident_id : String) (n : Nat) : Cache :=
  fun k => if k = incident_id then n else cache k

/-- One invocation's external-world data: the log contents at call time
plus the oracles for the two LLM calls and the publisher POST. -/
structure TriggerInput where
  log : List MessageRecord
  conversation_id : String
  current_user_name : String
  llmDetect : Except String IncidentContext
  llmSummary : Except String String
  httpOutcome : HttpOutcome

/-- The publisher call made by one trigger invocation. -/
structure PublishAttempt where
  incident_id : String
  summary : String
  succeeded : Bool
deriving DecidableEq, Repr

/-- Observable result of one trigger invocation: the cache afterwards,
the batch passed to the generator (if any), the publisher call (if any)
and whether the clarification message was sent. -/
structure TriggerResult where
  cache : Cache
  batch : Option (List MessageRecord)
  publish : Option PublishAttempt
  clarificationSent : Bool

/-- Embedding of `check_and_send_llm_incident_summary` (bot.py lines
1047-1118): skip bot senders; read the recent window (count 15); ask the
classifier; on `UNKNOWN_INCIDENT` send the clarification; on a detected
id aggregate the incident's user messages, read the cached count, and if
at least 5 new messages accumulated generate a summary over
`incident_messages[last_summary_count:]` and POST it, updating the cache
to the current count only when the POST succeeded. -/
def check_and_send_llm_incident_summary (cache : Cache)
    (inp : TriggerInput) : TriggerResult :=
  if isBot inp.current_user_name then ⟨cache, none, none, false⟩
  else
    let recent_messages :=
      get_recent_conversation_messages inp.log inp.conversation_id 15
    if recent_messages.isEmpty then ⟨cache, none, none, false⟩
    else
      match analyze_conversation_for_incident recent_messages inp.llmDetect with
      | none => ⟨cache, none, none, false⟩
      | some detected_incident =>
        if detected_incident = "UNKNOWN_INCIDENT" then ⟨cache, none, none, true⟩
        else if detected_incident = "" then ⟨cache, none, none, false⟩
        else
          let incident_messages :=
            get_incident_related_messages inp.log detected_incident
              inp.conversation_id
          if incident_messages.isEmpty then ⟨cache, none, none, false⟩
          else
            let current_count := incident_messages.length
            let last_summary_count := cache detected_incident
            if 5 ≤ (current_count : Int) - (last_summary_count : Int) then
              let recent_incident_messages :=
                incident_messages.drop last_summary_count
              let summary := generate_llm_summary detected_incident
                recent_incident_messages inp.llmSummary
              let success := send_user_summary_to_target_api detected_incident
                summary inp.httpOutcome
              { cache := if success then
                  updateCache cache detected_incident current_count
                else cache
                batch := some recent_incident_messages
                publish := some ⟨detected_incident, summary, success⟩
                clarificationSent := false }
            else ⟨cache, none, none, false⟩

/-- The cache after a sequence of trigger invocations. -/
def runTrigger (cache : Cache) (inps : List TriggerInput) : Cache :=
  inps.foldl (fun c i => (check_and_send_llm_incident_summary c i).cache) cache

/-! ## Full per-message step (`record_group_message`, control part) -/

/-- Process-wide state of the pipeline: the stored log and the summary
cache. -/
structure PipelineState where
  log : List MessageRecord
  cache : Cache

/-- Embedding of the control flow of `record_group_message` (bot.py lines
1203-1273): store the record unconditionally, then run the incident
analysis and summary trigger only when the sender is not the bot.
Returns the new state, the trigger's result, and whether the trigger was
invoked at all. -/
def handle_group_message (st : PipelineState) (r : MessageRecord)
    (llmDetect : Except String IncidentContext)
    (llmSummary : Except String String) (httpOutcome : HttpOutcome) :
    PipelineState × TriggerResult × Bool :=
  let log2 := record_group_message st.log r
  if isBot r.user_name then
    (⟨log2, st.cache⟩, ⟨st.cache, none, none, false⟩, false)
  else
    let tr := check_and_send_llm_incident_summary st.cache
      ⟨log2, r.conversation_id, r.user_name, llmDetect, llmSummary, httpOutcome⟩
    (⟨log2, tr.cache⟩, tr, true)

/-! ## Incident ID Extractor (`extract_incident_ids`)

Embedding of `re.findall(r'\b(INC[-]?\d{4,7})\b', text, re.IGNORECASE)`
followed by `list(set(matches))`.  The regex engine is embedded as a
left-to-right scanner over the character list: at each position with a
word boundary before it, it attempts to match `INC` (case-insensitive),
an optional `-`, then greedily 4-7 digits, requiring a word boundary
after the digits.  Greedy matching with backtracking inside a digit run
succeeds exactly when the whole maximal digit run has length 4-7 (taking
fewer digits always leaves a digit, i.e. a word character, right after
the match, so the trailing `\b` fails), which is what `incMatch`
implements via `takeWhile`. -/

/-- Python regex word character (`\w`), restricted to ASCII:
letters, digits and underscore. -/
def wordChar (c : Char) : Bool :=
  c.isAlphanum || c == '_'

/-- Word-boundary condition after a match: end of input or a non-word
character. -/
def boundaryAfter (l : List Char) : Bool :=
  match l with
  | [] => true
  | c :: _ => !wordChar c

/-- Attempt to match `INC[-]?\d{4,7}\b` at the head of `l` (the leading
`\b` is checked by the caller).  Returns the matched characters and the
remaining input. -/
def incMatch (l : List Char) : Option (List Char × List Char) :=
  match l with
  | c1 :: c2 :: c3 :: rest =>
    if c1.toLower = 'i' ∧ c2.toLower = 'n' ∧ c3.toLower = 'c' then
      let dash : List Char := if rest.head? = some '-' then ['-'] else []
      let r2 : List Char := if rest.head? = some '-' then rest.tail else rest
      let ds := r2.takeWhile Char.isDigit
      let rest3 := r2.drop ds.length
      if 4 ≤ ds.length ∧ ds.length ≤ 7 ∧ boundaryAfter rest3 = true then
        some (c1 :: c2 :: c3 :: (dash ++ ds), rest3)
      else
        none
    else
      none
  | _ => none

/-- The scan loop of `re.findall`: walk the input left to right keeping
track of whether the previous character was a word character (for the
leading `\b`); emit each match and continue right after it (matches are
non-overlapping; the last matched character is a digit, hence a word
character).  The `fuel` argument makes the recursion structural; it is
initialized to the input length, which bounds the number of steps since
every step consumes at least one character. -/
def scanIncFuel : Nat → Bool → List Char → List (List Char)
  | 0, _, _ => []
  | _ + 1, _, [] => []
  | fuel + 1, prevWord, c :: rest =>
    if prevWord then
      scanIncFuel fuel (wordChar c) rest
    else
      match incMatch (c :: rest) with
      | some (m, rest3) => m :: scanIncFuel fuel true rest3
      | none => scanIncFuel fuel (wordChar c) rest

/-- All matches of the incident-id pattern in a character list, in
left-to-right order. -/
def scanInc (l : List Char) : List (List Char) :=
  scanIncFuel l.length false l

/-- Embedding of `extract_incident_ids` (bot.py lines 698-703):
`re.findall` over the text, then `list(set(...))` to drop duplicates
(modelled keeping the first occurrence of each match). -/
def extract_incident_ids (text : String) : List String :=
  ((scanInc text.data).map (fun m => String.mk m)).dedup

/-! ### The pattern as the spec words it, for the refinement claim C8 -/

/-- Modelled from the spec's wording of the pattern: `INC` optionally
followed by `-`, then 4-7 digits, `INC` matched case-insensitively. -/
def specIncidentToken (m : List Char) : Prop :=
  ∃ (c1 c2 c3 : Char) (dash ds : List Char),
    m = c1 :: c2 :: c3 :: (dash ++ ds) ∧
    c1.toLower = 'i' ∧ c2.toLower = 'n' ∧ c3.toLower = 'c' ∧
    (dash = [] ∨ dash = ['-']) ∧
    (∀ c ∈ ds, c.isDigit = true) ∧ 4 ≤ ds.length ∧ ds.length ≤ 7

/-- Modelled from the spec's wording: `m` occurs in `s` as a substring
delimited by word boundaries (the token starts and ends with word
characters, so the boundary condition is that the adjacent outside
characters, when they exist, are non-word). -/
def specMatchIn (s m : List Char) : Prop :=
  specIncidentToken m ∧
  ∃ pre post, s = pre ++ m ++ post ∧
    (pre = [] ∨ ∃ p, pre.getLast? = some p ∧ wordChar p = false) ∧
    (post = [] ∨ ∃ c, post.head? = some c ∧ wordChar c = false)

/-! ## Helper lemmas and sample data -/

theorem strContains_of_data_infix {h n : String} (hinf : n.data <:+: h.data) :
    strContains h n = true :=
  decide_eq_true hinf

theorem strContains_mid (a b c : String) :
    strContains (a ++ b ++ c) b = true :=
  strContains_of_data_infix ⟨a.data, c.data, by simp [String.data_append]⟩

theorem strContains_mid2 (a b c d e : String) :
    strContains (a ++ b ++ c ++ d ++ e) d = true :=
  strContains_of_data_infix
    ⟨(a ++ b ++ c).data, e.data, by simp [String.data_append]⟩

/-- Sample message constructor for concrete witnesses. -/
def mkMsg (ts user text conv : String) : MessageRecord :=
  { timestamp := ts
    user_name := user
    user_id := "u-" ++ user
    message := text
    conversation_id := conv
    recorded_at := "rec"
    type := "group_chat_message" }

/-! ## C5: classifier decision policy -/

/-- C5: for every classifier result, `analyze_conversation_for_incident`
adopts the incident id exactly on the cell `is_incident_related ∧
confidence ≥ 7 ∧ incident_id non-empty`, returns the sentinel
`UNKNOWN_INCIDENT` on the cell `is_incident_related ∧ incident_id empty`,
returns `none` on every remaining cell, and maps any raised error to
`none`. -/
theorem C5_classifier_decision (recent_messages : List MessageRecord)
    (h : recent_messages ≠ []) :
    (∀ e, analyze_conversation_for_incident recent_messages
      (Except.error e) = none) ∧
    (∀ r : IncidentContext, r.is_incident_related = true → 7 ≤ r.confidence →
      r.incident_id ≠ "" →
      analyze_conversation_for_incident recent_messages (Except.ok r) =
        some r.incident_id) ∧
    (∀ r : IncidentContext, r.is_incident_related = true → r.incident_id = "" →
      analyze_conversation_for_incident recent_messages (Except.ok r) =
        some ("UNKNOWN_INCIDENT")) ∧
    (∀ r : IncidentContext,
      r.is_incident_related = false ∨ (r.confidence < 7 ∧ r.incident_id ≠ "") →
      analyze_conversation_for_incident recent_messages (Except.ok r) = none) := by
  have hne : recent_messages.isEmpty = false := by
    simp [List.isEmpty_iff, h]
  refine ⟨fun e => ?_, fun r h1 h2 h3 => ?_, fun r h1 h2 => ?_, fun r hr => ?_⟩
  · simp [analyze_conversation_for_incident, hne]
  · simp [analyze_conversation_for_incident, hne, h1, h2, h3]
  · simp [analyze_conversation_for_incident, hne, h1, h2]
  · rcases hr with hr | ⟨hc, hid⟩
    · simp [analyze_conversation_for_incident, hne, hr]
    · simp [analyze_conversation_for_incident, hne, hid, not_le.mpr hc]

/-- Witness for C5: a concrete high-confidence result is adopted. -/
theorem C5_classifier_decision_witness :
    analyze_conversation_for_incident [mkMsg "1" "alice" "hi" "c1"]
      (Except.ok ⟨"INC0001234", true, 9⟩) = some ("INC0001234") :=
  (C5_classifier_decision [mkMsg "1" "alice" "hi" "c1"] (by simp)).2.1
    ⟨"INC0001234", true, 9⟩ rfl (by decide) (by decide)

/-! ## C7: summary publisher -/

/-- C7 counterexample: on a 200 response whose body does not read as
JSON, `await response.json()` raises, the generic handler catches, and
the publisher returns `False` even though the HTTP status is 200 —
refuting "returns True if and only if the HTTP status is 200" at this
concrete input. -/
theorem C7_claim_counterexample :
    ¬ (send_user_summary_to_target_api ("INC0001234") ("team summary")
      (HttpOutcome.response 200 false) = true) := by
  decide

/-- C7 (amended): the publisher POSTs `{"incident_id", "summary"}` as
JSON to `http://localhost:8092/summary` with a 30-second timeout, and
returns `true` iff the status is 200 and the response body reads as
JSON; any non-200 status, unreadable 200 body, connection error,
timeout, or other exception yields `false`.  Totality of the function
models "never raises"; it issues the single request `summaryRequest`
("never retries"). -/
theorem C7_publisher_amended (incident_id conversation_summary : String)
    (outcome : HttpOutcome) :
    (send_user_summary_to_target_api incident_id conversation_summary outcome =
        true ↔ outcome = HttpOutcome.response 200 true) ∧
    summaryRequest incident_id conversation_summary =
      { url := "http://localhost:8092/summary"
        body_incident_id := incident_id
        body_summary := conversation_summary
        contentType := "application/json"
        timeoutSeconds := 30 } := by
  refine ⟨?_, rfl⟩
  cases outcome with
  | response status bodyReadsAsJson =>
    by_cases hs : status = 200
    · subst hs
      cases bodyReadsAsJson <;>
        simp [send_user_summary_to_target_api]
    · simp [send_user_summary_to_target_api, hs]
  | connectionError => simp [send_user_summary_to_target_api]
  | timedOut => simp [send_user_summary_to_target_api]
  | otherError e => simp [send_user_summary_to_target_api]

/-! ## C6: generator fallback and publish proceeding -/

/-- C6: for a non-empty batch, whenever the LLM summary call raises or
returns a response that is shorter than 30 characters once stripped,
`generate_llm_summary` returns a deterministic template containing the
incident id and the message count; and whenever the trigger publishes,
the summary it hands to the publisher is exactly the generator's output
on the batch `records[last_summarized : current]` — so a fallback
summary still reaches the publish step. -/
theorem C6_generator_fallback (incident_id : String)
    (messages : List MessageRecord) (llm : Except String String)
    (hne : messages ≠ [])
    (hfail : (∃ e, llm = Except.error e) ∨
      ∃ content, llm = Except.ok content ∧ (trimStr content).data.length < 30) :
    (strContains (generate_llm_summary incident_id messages llm)
        incident_id = true ∧
      strContains (generate_llm_summary incident_id messages llm)
        (toString messages.length) = true) ∧
    (∀ (cache : Cache) (inp : TriggerInput) (a : PublishAttempt),
      (check_and_send_llm_incident_summary cache inp).publish = some a →
      a.summary = generate_llm_summary a.incident_id
        ((get_incident_related_messages inp.log a.incident_id
          inp.conversation_id).drop (cache a.incident_id)) inp.llmSummary) := by
  have hempty : messages.isEmpty = false := by
    simp [List.isEmpty_iff, hne]
  have hcontains : ∀ (a b c d e : String),
      strContains (a ++ b ++ c ++ d ++ e) b = true ∧
      strContains (a ++ b ++ c ++ d ++ e) d = true :=
    fun a b c d e =>
      ⟨by simpa [String.append_assoc] using strContains_mid a b (c ++ d ++ e),
        strContains_mid2 a b c d e⟩
  constructor
  · rcases hfail with ⟨e, rfl⟩ | ⟨content, rfl, hshort⟩
    · simp only [generate_llm_summary, hempty, Bool.false_eq_true, if_false]
      split
      · split
        · exact hcontains _ _ _ _ _
        · split
          · exact hcontains _ _ _ _ _
          · exact hcontains _ _ _ _ _
      · exact hcontains _ _ _ _ _
    · simp only [generate_llm_summary, hempty, Bool.false_eq_true, if_false,
        hshort, if_true]
      exact hcontains _ _ _ _ _
  · intro cache inp a ha
    simp only [check_and_send_llm_incident_summary] at ha
    split at ha
    · simp at ha
    · split at ha
      · simp at ha
      · split at ha
        · simp at ha
        · split at ha
          · simp at ha
          · split at ha
            · simp at ha
            · split at ha
              · simp at ha
              · split at ha
                · simp only [Option.some.injEq] at ha
                  subst ha
                  rfl
                · simp at ha

/-- Witness for C6: with a failing LLM call on a concrete batch, the
generated summary contains the incident id. -/
theorem C6_generator_fallback_witness :
    strContains (generate_llm_summary ("INC0001234")
      [mkMsg "1" "alice" "hi" "c1"] (Except.error "boom"))
      ("INC0001234") = true :=
  ((C6_generator_fallback "INC0001234" [mkMsg "1" "alice" "hi" "c1"]
    (Except.error "boom") (by simp) (Or.inl ⟨"boom", rfl⟩)).1).1

/-! ## C9: conversation window reader -/

/-- C9: `get_recent_conversation_messages` returns at most `count`
records (15 at the call sites), all from the requested conversation,
ordered chronologically (timestamp ascending), and they are the most
recent ones: every record of the conversation that was left out has a
timestamp at most that of every returned record. -/
theorem C9_recent_window (log : List MessageRecord)
    (conversation_id : String) (count : Nat) :
    (get_recent_conversation_messages log conversation_id count).length ≤
      count ∧
    (∀ m ∈ get_recent_conversation_messages log conversation_id count,
      m.conversation_id = conversation_id) ∧
    List.Pairwise tsLe
      (get_recent_conversation_messages log conversation_id count) ∧
    (∀ x ∈ get_recent_conversation_messages log conversation_id count,
      ∀ y ∈ ((log.filter
        (fun m => m.conversation_id == conversation_id)).insertionSort
          tsGe).drop count,
      tsLe y x) := by
  have hsorted : List.Pairwise tsGe
      ((log.filter
        (fun m => m.conversation_id == conversation_id)).insertionSort tsGe) :=
    List.sorted_insertionSort tsGe _
  simp only [get_recent_conversation_messages]
  refine ⟨?_, fun m hm => ?_, ?_, fun x hx y hy => ?_⟩
  · simp [List.length_take]
  · have hm2 : m ∈ (log.filter
        (fun m => m.conversation_id == conversation_id)).insertionSort tsGe :=
      (List.take_sublist _ _).subset (List.mem_reverse.mp hm)
    have hm3 := (List.mem_insertionSort tsGe).mp hm2
    simpa using List.of_mem_filter hm3
  · refine List.pairwise_reverse.mpr ?_
    exact List.Pairwise.sublist (List.take_sublist _ _) hsorted
  · have hx2 := List.mem_reverse.mp hx
    have hsplit := List.take_append_drop count
      ((log.filter
        (fun m => m.conversation_id == conversation_id)).insertionSort tsGe)
    have hpw := hsorted
    rw [← hsplit] at hpw
    exact (List.pairwise_append.mp hpw).2.2 x hx2 y hy

/-! ## C3: per-conversation log cap -/

/-- The records of conversation `c` in a log, in stored order. -/
def convFilter (c : String) (l : List MessageRecord) : List MessageRecord :=
  l.filter (fun m => m.conversation_id == c)

theorem convFilter_append (c : String) (l₁ l₂ : List MessageRecord) :
    convFilter c (l₁ ++ l₂) = convFilter c l₁ ++ convFilter c l₂ :=
  List.filter_append l₁ l₂

theorem convFilter_record_same (log : List MessageRecord) (r : MessageRecord) :
    convFilter r.conversation_id (record_group_message log r) =
      if 100 < (convFilter r.conversation_id (log ++ [r])).length then
        (convFilter r.conversation_id (log ++ [r])).drop
          ((convFilter r.conversation_id (log ++ [r])).length - 100)
      else
        convFilter r.conversation_id (log ++ [r]) := by
  simp only [record_group_message, convFilter]
  split
  · rw [List.filter_append]
    have h1 : ((log ++ [r]).filter
        (fun m => !(m.conversation_id == r.conversation_id))).filter
        (fun m => m.conversation_id == r.conversation_id) = [] := by
      rw [List.filter_filter]
      have : ∀ a : MessageRecord,
          ((a.conversation_id == r.conversation_id) &&
            !(a.conversation_id == r.conversation_id)) = false :=
        fun a => Bool.and_not_self _
      calc ((log ++ [r]).filter fun a =>
            (a.conversation_id == r.conversation_id) &&
              !(a.conversation_id == r.conversation_id))
          = (log ++ [r]).filter (fun _ => false) :=
            List.filter_congr (fun a _ => this a)
        _ = [] := List.filter_false _
    rw [h1, List.nil_append]
    refine List.filter_eq_self.mpr ?_
    intro a ha
    have ha2 : a ∈ (log ++ [r]).filter
        (fun m => m.conversation_id == r.conversation_id) :=
      List.mem_of_mem_drop ha
    have hp := List.of_mem_filter ha2
    exact hp
  · rfl

theorem convFilter_record_other (log : List MessageRecord) (r : MessageRecord)
    (c : String) (hne : c ≠ r.conversation_id) :
    convFilter c (record_group_message log r) = convFilter c log := by
  have hr : (r.conversation_id == c) = false :=
    beq_eq_false_iff_ne.mpr (fun h => hne h.symm)
  have happ : convFilter c (log ++ [r]) = convFilter c log := by
    rw [convFilter_append]
    simp [convFilter, hr]
  simp only [record_group_message]
  split
  · rename_i h
    show convFilter c _ = _
    rw [convFilter_append]
    have h1 : convFilter c ((log ++ [r]).filter
        (fun m => !(m.conversation_id == r.conversation_id))) =
        convFilter c (log ++ [r]) := by
      simp only [convFilter, List.filter_filter]
      refine List.filter_congr (fun a _ => ?_)
      by_cases hac : a.conversation_id = c
      · have hf : (a.conversation_id == r.conversation_id) = false := by
          rw [hac]
          exact beq_eq_false_iff_ne.mpr hne
        simp [hac, hf]
        exact hne
      · simp [hac]
    have h2 : convFilter c (((log ++ [r]).filter
        (fun m => m.conversation_id == r.conversation_id)).drop
          (((log ++ [r]).filter
            (fun m => m.conversation_id == r.conversation_id)).length - 100)) =
        [] := by
      rw [convFilter, List.filter_eq_nil_iff]
      intro a ha
      have ha2 := List.of_mem_filter (List.drop_subset _ _ ha)
      simp only [beq_iff_eq] at ha2 ⊢
      rw [ha2]
      exact fun h => hne h.symm
    rw [h1, h2, List.append_nil, happ]
  · exact happ

theorem recordMany_append_one (rs : List MessageRecord) (r : MessageRecord) :
    recordMany (rs ++ [r]) = record_group_message (recordMany rs) r := by
  simp [recordMany, List.foldl_append]

/-- C3: starting from the empty log, after any sequence of appends via
`record_group_message` the retained records of each conversation are
exactly the last (at most) 100 appended records of that conversation, in
insertion order — so the log never retains more than 100 records per
conversation_id, and when the cap is exceeded the oldest records of that
conversation are dropped first. -/
theorem capStep {α : Type} (F : List α) (r : α) :
    (if 100 < (F.drop (F.length - 100) ++ [r]).length then
        (F.drop (F.length - 100) ++ [r]).drop
          ((F.drop (F.length - 100) ++ [r]).length - 100)
      else F.drop (F.length - 100) ++ [r]) =
      (F ++ [r]).drop ((F ++ [r]).length - 100) := by
  have hD : (F.drop (F.length - 100)).length = F.length - (F.length - 100) :=
    List.length_drop _ _
  by_cases h : 100 < F.length
  · have hcond : 100 < (F.drop (F.length - 100) ++ [r]).length := by
      rw [List.length_append, hD]
      simp
      omega
    rw [if_pos hcond, List.length_append, hD]
    have h1 : F.length - (F.length - 100) + [r].length - 100 = 1 := by
      simp
      omega
    rw [h1]
    have h2 : (1 : Nat) ≤ (F.drop (F.length - 100)).length := by omega
    rw [List.drop_append_of_le_length h2, List.drop_drop]
    have h3 : (F ++ [r]).length - 100 = F.length + 1 - 100 := by simp
    rw [h3]
    have h4 : F.length + 1 - 100 ≤ F.length := by omega
    rw [List.drop_append_of_le_length h4]
    have h5 : F.length - 100 + 1 = F.length + 1 - 100 := by omega
    rw [h5]
  · have h0 : F.length - 100 = 0 := by omega
    rw [h0, List.drop_zero]
    split
    · rfl
    · have h7 : (F ++ [r]).length = F.length + 1 := by simp
      have h6 : (F ++ [r]).length - 100 = 0 := by omega
      rw [h6, List.drop_zero]

theorem C3_log_cap (rs : List MessageRecord) (c : String) :
    convFilter c (recordMany rs) =
      (convFilter c rs).drop ((convFilter c rs).length - 100) ∧
    (convFilter c (recordMany rs)).length ≤ 100 := by
  have key : ∀ (rs : List MessageRecord) (c : String),
      convFilter c (recordMany rs) =
        (convFilter c rs).drop ((convFilter c rs).length - 100) := by
    intro rs
    induction rs using List.reverseRecOn with
    | nil => intro c; simp [recordMany, convFilter]
    | append_singleton rs r ih =>
      intro c
      rw [recordMany_append_one]
      by_cases hc : c = r.conversation_id
      · subst hc
        rw [convFilter_record_same, convFilter_append, convFilter_append, ih _]
        have hfr : convFilter r.conversation_id [r] = [r] := by
          simp [convFilter]
        rw [hfr]
        exact capStep _ r
      · rw [convFilter_record_other _ _ _ hc, ih c, convFilter_append]
        have hfr : convFilter c [r] = [] := by
          simp [convFilter]
          intro h
          exact absurd h.symm hc
        rw [hfr, List.append_nil]
  refine ⟨key rs c, ?_⟩
  rw [key rs c, List.length_drop]
  omega

/-! ## C10: bot-name substring filtering -/

theorem mem_drop_append_last {α : Type} (L : List α) (r : α) (k : Nat)
    (hk : k ≤ L.length) : r ∈ (L ++ [r]).drop k := by
  rw [List.drop_append_of_le_length hk]
  exact List.mem_append.mpr (Or.inr (List.mem_singleton.mpr rfl))

theorem self_mem_record_group_message (log : List MessageRecord)
    (r : MessageRecord) : r ∈ record_group_message log r := by
  have hconv : (log ++ [r]).filter
      (fun m => m.conversation_id == r.conversation_id) =
      log.filter (fun m => m.conversation_id == r.conversation_id) ++ [r] := by
    rw [List.filter_append]
    simp
  simp only [record_group_message, hconv]
  split
  · rename_i h
    refine List.mem_append.mpr (Or.inr ?_)
    have hlen : (log.filter
        (fun m => m.conversation_id == r.conversation_id) ++ [r]).length =
        (log.filter (fun m => m.conversation_id == r.conversation_id)).length
          + 1 := by
      simp
    refine mem_drop_append_last _ _ _ ?_
    omega
  · exact List.mem_append.mpr (Or.inr (List.mem_singleton.mpr rfl))

/-- C10: a sender whose display name contains `bot` (or `teams-copilot`)
case-insensitively — such as the human name `Abbott` — is treated as the
bot everywhere: the message is still stored in the log, but the
classifier/summary trigger is not invoked for it (and a trigger
invocation naming it as current sender is a no-op), and the aggregator
never returns records from such senders. -/
theorem C10_bot_name_filtering :
    isBot ("Abbott") = true ∧
    (∀ (st : PipelineState) (r : MessageRecord)
      (llmDetect : Except String IncidentContext)
      (llmSummary : Except String String) (httpOutcome : HttpOutcome),
      isBot r.user_name = true →
      r ∈ (handle_group_message st r llmDetect llmSummary httpOutcome).1.log ∧
      (handle_group_message st r llmDetect llmSummary httpOutcome).2.2 =
        false ∧
      (handle_group_message st r llmDetect llmSummary
        httpOutcome).2.1.publish = none ∧
      (∀ k, (handle_group_message st r llmDetect llmSummary
        httpOutcome).1.cache k = st.cache k)) ∧
    (∀ (log : List MessageRecord) (incident_id conversation_id : String)
      (m : MessageRecord),
      m ∈ get_incident_related_messages log incident_id conversation_id →
      isBot m.user_name = false) ∧
    (∀ (cache : Cache) (inp : TriggerInput),
      isBot inp.current_user_name = true →
      check_and_send_llm_incident_summary cache inp =
        ⟨cache, none, none, false⟩) := by
  refine ⟨by decide, fun st r llmDetect llmSummary httpOutcome hbot => ?_,
    fun log incident_id conversation_id m hm => ?_, fun cache inp hbot => ?_⟩
  · refine ⟨?_, ?_, ?_, ?_⟩
    · simp only [handle_group_message, hbot, Bool.true_eq_false, if_true,
        if_false]
      exact self_mem_record_group_message st.log r
    · simp [handle_group_message, hbot]
    · simp [handle_group_message, hbot]
    · intro k
      simp [handle_group_message, hbot]
  · have hm2 := List.of_mem_filter hm
    simpa using hm2
  · simp [check_and_send_llm_incident_summary, hbot]

/-- Witness for C10: a concrete message from sender `HelperBot` is
stored in the log even though the trigger is skipped. -/
theorem C10_bot_name_filtering_witness :
    (mkMsg "1" "HelperBot" "hi" "c1") ∈
      (handle_group_message ⟨[], fun _ => 0⟩ (mkMsg "1" "HelperBot" "hi" "c1")
        (Except.error "e") (Except.error "e")
        HttpOutcome.connectionError).1.log :=
  (C10_bot_name_filtering.2.1 ⟨[], fun _ => 0⟩
    (mkMsg "1" "HelperBot" "hi" "c1") (Except.error "e") (Except.error "e")
    HttpOutcome.connectionError (by decide)).1

/-! ## C1: trigger fires iff 5 new eligible messages -/

/-- C1: once the classifier has detected a concrete incident id for the
conversation, a trigger invocation generates and publishes a summary if
and only if the aggregator returns at least `C + 5` eligible messages
(where `C` is the cached last-summarized count), and the batch passed to
the generator is exactly the index slice `records[C : current]` of the
aggregator's output. -/
theorem C1_summary_trigger_iff (cache : Cache) (inp : TriggerInput)
    (detected : String)
    (hbot : isBot inp.current_user_name = false)
    (hdet : analyze_conversation_for_incident
      (get_recent_conversation_messages inp.log inp.conversation_id 15)
      inp.llmDetect = some detected)
    (hunk : detected ≠ "UNKNOWN_INCIDENT") (hemp : detected ≠ "") :
    ((check_and_send_llm_incident_summary cache inp).publish.isSome = true ∧
      (check_and_send_llm_incident_summary cache inp).batch =
        some ((get_incident_related_messages inp.log detected
          inp.conversation_id).drop (cache detected))) ↔
    cache detected + 5 ≤
      (get_incident_related_messages inp.log detected
        inp.conversation_id).length := by
  have hne : (get_recent_conversation_messages inp.log
      inp.conversation_id 15).isEmpty = false := by
    cases hev : (get_recent_conversation_messages inp.log
        inp.conversation_id 15).isEmpty
    · rfl
    · simp only [analyze_conversation_for_incident, hev, if_true] at hdet
      exact absurd hdet (by simp)
  simp only [check_and_send_llm_incident_summary, hbot, Bool.false_eq_true,
    if_false, hne, hdet, hunk, hemp]
  cases hM : (get_incident_related_messages inp.log detected
      inp.conversation_id).isEmpty
  · simp only [Bool.false_eq_true, if_false]
    split
    · rename_i hcond
      exact iff_of_true ⟨rfl, rfl⟩ (by omega)
    · rename_i hcond
      refine iff_of_false (fun h => ?_) (by omega)
      simpa using h.1
  · have hz : (get_incident_related_messages inp.log detected
        inp.conversation_id).length = 0 := by
      rw [List.isEmpty_iff] at hM
      simp [hM]
    simp only [if_true]
    simp [hz]

/-- Concrete five-message conversation about INC0001234. -/
def w1log : List MessageRecord :=
  [mkMsg "1" "alice" "INC0001234 is down" "c1",
   mkMsg "2" "bob" "looking into INC0001234" "c1",
   mkMsg "3" "carol" "INC0001234 details" "c1",
   mkMsg "4" "dave" "update INC0001234" "c1",
   mkMsg "5" "erin" "INC0001234 status" "c1"]

/-- Concrete trigger invocation for the witnesses: high-confidence
detection, failing summary LLM, publisher answering 200 with a JSON
body. -/
def w1inp : TriggerInput :=
  ⟨w1log, "c1", "erin", Except.ok ⟨"INC0001234", true, 9⟩,
    Except.error "llm down", HttpOutcome.response 200 true⟩

/-- Witness for C1: with an empty cache and five aggregated messages the
trigger publishes. -/
theorem C1_summary_trigger_iff_witness :
    (check_and_send_llm_incident_summary (fun _ => 0) w1inp).publish.isSome =
      true :=
  ((C1_summary_trigger_iff (fun _ => 0) w1inp "INC0001234" (by decide)
    (by decide) (by decide) (by decide)).mpr (by decide)).1

/-! ## C2: cache update discipline and monotonicity -/

theorem trigger_cache_mono (cache : Cache) (inp : TriggerInput) (k : String) :
    cache k ≤ (check_and_send_llm_incident_summary cache inp).cache k := by
  simp only [check_and_send_llm_incident_summary]
  split
  · exact le_refl _
  · split
    · exact le_refl _
    · split
      · exact le_refl _
      · split
        · exact le_refl _
        · split
          · exact le_refl _
          · split
            · exact le_refl _
            · split
              · rename_i hcond
                split
                · simp only [updateCache]
                  split
                  · rename_i hk
                    subst hk
                    omega
                  · exact le_refl _
                · exact le_refl _
              · exact le_refl _

theorem runTrigger_mono (cache : Cache) (inps : List TriggerInput)
    (k : String) : cache k ≤ runTrigger cache inps k := by
  induction inps generalizing cache with
  | nil => exact le_refl _
  | cons i t ih =>
    exact le_trans (trigger_cache_mono cache i k)
      (ih (check_and_send_llm_incident_summary cache i).cache)

/-- Case characterization of one trigger invocation: either it makes no
publish attempt and leaves the cache unchanged, or it publishes the
generated summary over the batch `records[cached :]` and updates the
cache to the current aggregate count exactly when the POST succeeded. -/
theorem trigger_step_cases (cache : Cache) (inp : TriggerInput) :
    ((check_and_send_llm_incident_summary cache inp).publish = none ∧
      (check_and_send_llm_incident_summary cache inp).cache = cache) ∨
    (∃ detected : String,
      (check_and_send_llm_incident_summary cache inp).publish =
        some ⟨detected,
          generate_llm_summary detected
            ((get_incident_related_messages inp.log detected
              inp.conversation_id).drop (cache detected)) inp.llmSummary,
          send_user_summary_to_target_api detected
            (generate_llm_summary detected
              ((get_incident_related_messages inp.log detected
                inp.conversation_id).drop (cache detected)) inp.llmSummary)
            inp.httpOutcome⟩ ∧
      (check_and_send_llm_incident_summary cache inp).cache =
        (if send_user_summary_to_target_api detected
            (generate_llm_summary detected
              ((get_incident_related_messages inp.log detected
                inp.conversation_id).drop (cache detected)) inp.llmSummary)
            inp.httpOutcome = true then
          updateCache cache detected
            (get_incident_related_messages inp.log detected
              inp.conversation_id).length
        else cache)) := by
  simp only [check_and_send_llm_incident_summary]
  split
  · exact Or.inl ⟨rfl, rfl⟩
  · split
    · exact Or.inl ⟨rfl, rfl⟩
    · split
      · exact Or.inl ⟨rfl, rfl⟩
      · rename_i detected heq
        split
        · exact Or.inl ⟨rfl, rfl⟩
        · split
          · exact Or.inl ⟨rfl, rfl⟩
          · split
            · exact Or.inl ⟨rfl, rfl⟩
            · split
              · exact Or.inr ⟨detected, rfl, rfl⟩
              · exact Or.inl ⟨rfl, rfl⟩

/-- C2: after any trigger invocation, a successful publish sets the
incident's cache entry to the current eligible count, a failed publish
leaves the whole cache unchanged (so the same batch boundaries are
retried next time), an invocation that does not publish leaves the cache
unchanged, and the cached count of every incident id never decreases —
neither across a single invocation nor across any sequence of
invocations. -/
theorem C2_cache_update (cache : Cache) (inp : TriggerInput) :
    (∀ a : PublishAttempt,
      (check_and_send_llm_incident_summary cache inp).publish = some a →
      a.succeeded = true →
      (check_and_send_llm_incident_summary cache inp).cache =
        updateCache cache a.incident_id
          (get_incident_related_messages inp.log a.incident_id
            inp.conversation_id).length) ∧
    (∀ a : PublishAttempt,
      (check_and_send_llm_incident_summary cache inp).publish = some a →
      a.succeeded = false →
      (check_and_send_llm_incident_summary cache inp).cache = cache) ∧
    ((check_and_send_llm_incident_summary cache inp).publish = none →
      (check_and_send_llm_incident_summary cache inp).cache = cache) ∧
    (∀ k, cache k ≤ (check_and_send_llm_incident_summary cache inp).cache k) ∧
    (∀ (inps : List TriggerInput) (k : String),
      cache k ≤ runTrigger cache inps k) := by
  refine ⟨?_, ?_, ?_, trigger_cache_mono cache inp,
    fun inps k => runTrigger_mono cache inps k⟩
  · intro a ha hs
    rcases trigger_step_cases cache inp with ⟨hp, _⟩ | ⟨d, hp, hc⟩
    · rw [hp] at ha
      exact absurd ha (by simp)
    · rw [hp] at ha
      simp only [Option.some.injEq] at ha
      subst ha
      simp only at hs
      rw [hc, if_pos hs]
  · intro a ha hs
    rcases trigger_step_cases cache inp with ⟨hp, hc⟩ | ⟨d, hp, hc⟩
    · exact hc
    · rw [hp] at ha
      simp only [Option.some.injEq] at ha
      subst ha
      simp only at hs
      rw [hc, if_neg (by simp [hs])]
  · intro h
    rcases trigger_step_cases cache inp with ⟨hp, hc⟩ | ⟨d, hp, hc⟩
    · exact hc
    · rw [hp] at h
      exact absurd h (by simp)

/-- Witness for C2: a successful publish at the concrete input updates
the cache entry to the aggregate count. -/
theorem C2_cache_update_witness :
    (check_and_send_llm_incident_summary (fun _ => 0) w1inp).cache =
      updateCache (fun _ => 0) "INC0001234"
        (get_incident_related_messages w1log "INC0001234" "c1").length :=
  (C2_cache_update (fun _ => 0) w1inp).1
    ⟨"INC0001234",
      generate_llm_summary "INC0001234"
        ((get_incident_related_messages w1log "INC0001234" "c1").drop 0)
        (Except.error "llm down"), true⟩ (by decide) (by decide)

/-! ## C4: aggregator output shape -/

/-- The aggregator's chronological view of a conversation. -/
def conversationSorted (log : List MessageRecord)
    (conversation_id : String) : List MessageRecord :=
  (log.filter (fun m => m.conversation_id == conversation_id)).insertionSort
    tsLe

/-- The spec's fallback window: the last 20 records of the conversation
in chronological order. -/
def fallbackWindow (log : List MessageRecord) (conversation_id : String) :
    List MessageRecord :=
  (conversationSorted log conversation_id).drop
    ((conversationSorted log conversation_id).length - 20)

/-- C4 counterexample: in a two-message conversation where only the
bot's later message mentions the incident id, the aggregator starts at
that mention and then filters the bot out, returning the empty list even
though a user (non-bot) message sits in the fallback 20-record window —
refuting the unconditional "never empty" clause of the claim. -/
theorem C4_claim_counterexample :
    (∃ m ∈ fallbackWindow
      [mkMsg "1" "alice" "hello team" "c1",
       mkMsg "2" "HelperBot" "please check INC0001234" "c1"] "c1",
      isBot m.user_name = false) ∧
    get_incident_related_messages
      [mkMsg "1" "alice" "hello team" "c1",
       mkMsg "2" "HelperBot" "please check INC0001234" "c1"]
      "INC0001234" "c1" = [] := by
  decide

/-- C4 (amended): the aggregator output is always a suffix of the
conversation's chronological bot-filtered records; when some record
mentions the incident id the output starts at the first such record; and
in the fallback case (no record mentions the id) the output is non-empty
whenever the fallback 20-record window contains at least one user
(non-bot) message. -/
theorem C4_aggregator_amended (log : List MessageRecord)
    (incident_id conversation_id : String) :
    get_incident_related_messages log incident_id conversation_id <:+
      ((conversationSorted log conversation_id).filter
        (fun m => !isBot m.user_name)) ∧
    (∀ i, (conversationSorted log conversation_id).findIdx?
        (mentionsIncident incident_id) = some i →
      get_incident_related_messages log incident_id conversation_id =
        ((conversationSorted log conversation_id).drop i).filter
          (fun m => !isBot m.user_name)) ∧
    ((conversationSorted log conversation_id).findIdx?
        (mentionsIncident incident_id) = none →
      (∃ m ∈ fallbackWindow log conversation_id,
        isBot m.user_name = false) →
      get_incident_related_messages log incident_id conversation_id ≠ []) := by
  refine ⟨?_, fun i hi => ?_, fun hnone hex => ?_⟩
  · have hsuffix : ∀ n : Nat,
        ((conversationSorted log conversation_id).drop n).filter
          (fun m => !isBot m.user_name) <:+
        ((conversationSorted log conversation_id).filter
          (fun m => !isBot m.user_name)) :=
      fun n => List.IsSuffix.filter _ (List.drop_suffix n _)
    simp only [get_incident_related_messages]
    exact hsuffix _
  · simp only [conversationSorted] at hi
    simp only [get_incident_related_messages, hi, conversationSorted]
  · simp only [conversationSorted] at hnone
    simp only [get_incident_related_messages, hnone, conversationSorted]
    rcases hex with ⟨m, hm, hbot⟩
    simp only [fallbackWindow, conversationSorted] at hm
    exact List.ne_nil_of_mem (List.mem_filter.mpr ⟨hm, by simp [hbot]⟩)

/-- Witness for C4: at a concrete log whose first record mentions the
incident, the aggregator output equals the bot-filtered records from
index 0. -/
theorem C4_aggregator_amended_witness :
    get_incident_related_messages w1log "INC0001234" "c1" =
      ((conversationSorted w1log "c1").drop 0).filter
        (fun m => !isBot m.user_name) :=
  (C4_aggregator_amended w1log "INC0001234" "c1").2.1 0 (by decide)

/-- Witness for C9: a concrete record returned by the window reader
carries the requested conversation id. -/
theorem C9_recent_window_witness :
    (mkMsg "2" "bob" "looking into INC0001234" "c1").conversation_id =
      "c1" :=
  (C9_recent_window w1log "c1" 15).2.1
    (mkMsg "2" "bob" "looking into INC0001234" "c1") (by decide)

/-- Witness for C7 (amended): a 200 response with a JSON body yields
`true` at a concrete input. -/
theorem C7_publisher_amended_witness :
    send_user_summary_to_target_api "INC0001234" "team summary"
      (HttpOutcome.response 200 true) = true :=
  (C7_publisher_amended "INC0001234" "team summary"
    (HttpOutcome.response 200 true)).1.mpr rfl

/-! ## C8: extractor correctness lemmas -/

theorem isDigit_toLower {c : Char} (h : c.isDigit = true) : c.toLower = c := by
  simp only [Char.isDigit, Bool.and_eq_true, decide_eq_true_eq] at h
  have h57 : c.val.toNat ≤ (57 : UInt32).toNat := h.2
  unfold Char.toLower
  rw [if_neg]
  intro hcon
  have h65 : (65 : Nat) ≤ c.toNat := hcon.1
  have e1 : c.toNat = c.val.toNat := rfl
  have e2 : (57 : UInt32).toNat = 57 := rfl
  omega

theorem isDigit_wordChar {c : Char} (h : c.isDigit = true) :
    wordChar c = true := by
  simp [wordChar, Char.isAlphanum, h]

theorem isDigit_toLower_ne_i {c : Char} (h : c.isDigit = true) :
    c.toLower ≠ 'i' := by
  rw [isDigit_toLower h]
  intro he
  rw [he] at h
  exact absurd h (by decide)

theorem isDigit_ne_dash {c : Char} (h : c.isDigit = true) : c ≠ '-' := by
  intro he
  rw [he] at h
  exact absurd h (by decide)

theorem specIncidentToken_ne_nil {m : List Char} (h : specIncidentToken m) :
    m ≠ [] := by
  rcases h with ⟨c1, c2, c3, dash, ds, rfl, _⟩
  simp

theorem specIncidentToken_head {m : List Char} (h : specIncidentToken m) :
    ∃ c, m.head? = some c ∧ c.toLower = 'i' := by
  rcases h with ⟨c1, c2, c3, dash, ds, rfl, h1, _⟩
  exact ⟨c1, rfl, h1⟩

theorem specIncidentToken_last_digit {m : List Char}
    (h : specIncidentToken m) :
    ∃ d, m.getLast? = some d ∧ d.isDigit = true := by
  rcases h with ⟨c1, c2, c3, dash, ds, rfl, h1, h2, h3, hdash, hds, h4, h7⟩
  have hds_ne : ds ≠ [] := by
    intro he
    rw [he] at h4
    simp at h4
  obtain ⟨d, ys, hys⟩ : ∃ d ys, ds = ys ++ [d] := by
    rcases List.eq_nil_or_concat ds with he | ⟨ys, d, hyd⟩
    · exact absurd he hds_ne
    · exact ⟨d, ys, by simpa [List.concat_eq_append] using hyd⟩
  refine ⟨d, ?_, ?_⟩
  · have : c1 :: c2 :: c3 :: (dash ++ ds) =
        (c1 :: c2 :: c3 :: (dash ++ ys)) ++ [d] := by
      simp [hys]
    rw [this, List.getLast?_concat]
  · have hdm : d ∈ ds := by
      rw [hys]
      exact List.mem_append.mpr (Or.inr (List.mem_singleton.mpr rfl))
    exact hds d hdm

/-- Characters strictly inside an incident token never lower to `i`. -/
theorem specIncidentToken_interior {m : List Char} (hm : specIncidentToken m)
    (k : Nat) (hk1 : 1 ≤ k) (e : Char) (he : (m.drop k).head? = some e) :
    e.toLower ≠ 'i' := by
  rcases hm with ⟨c1, c2, c3, dash, ds, rfl, h1, h2, h3, hdash, hds, h4, h7⟩
  match k, hk1 with
  | 1, _ =>
    simp only [List.drop_succ_cons, List.drop_zero, List.head?_cons,
      Option.some.injEq] at he
    subst he
    rw [h2]
    decide
  | 2, _ =>
    simp only [List.drop_succ_cons, List.drop_zero, List.head?_cons,
      Option.some.injEq] at he
    subst he
    rw [h3]
    decide
  | (j + 3), _ =>
    have he2 : ((dash ++ ds).drop j).head? = some e := by
      simpa [List.drop_succ_cons] using he
    rw [List.head?_drop] at he2
    have hmem : e ∈ dash ++ ds := by
      rw [List.getElem?_eq_some_iff] at he2
      obtain ⟨hlt, hval⟩ := he2
      exact hval ▸ List.getElem_mem hlt
    rcases List.mem_append.mp hmem with hd | hd
    · rcases hdash with rfl | rfl
      · simp at hd
      · rw [List.mem_singleton.mp hd]
        decide
    · exact isDigit_toLower_ne_i (hds e hd)

theorem drop_takeWhile_length (p : Char → Bool) (l : List Char) :
    l.drop (l.takeWhile p).length = l.dropWhile p := by
  induction l with
  | nil => rfl
  | cons a t ih =>
    by_cases hp : p a
    · simp [List.takeWhile_cons, List.dropWhile_cons, hp, ih]
    · simp [List.takeWhile_cons, List.dropWhile_cons, hp]

theorem takeWhile_append_stop (p : Char → Bool) (ds post : List Char)
    (hall : ∀ x ∈ ds, p x = true)
    (hpost : post.head? = none ∨ ∃ c, post.head? = some c ∧ p c = false) :
    (ds ++ post).takeWhile p = ds := by
  induction ds with
  | nil =>
    cases post with
    | nil => rfl
    | cons c t =>
      rcases hpost with h | ⟨c2, hc2, hp⟩
      · simp at h
      · simp only [List.head?_cons, Option.some.injEq] at hc2
        subst hc2
        simp [List.takeWhile_cons, hp]
  | cons d t ih =>
    simp only [List.cons_append, List.takeWhile_cons,
      hall d (List.mem_cons_self d t), if_true, List.cons.injEq, true_and]
    exact ih (fun x hx => hall x (List.mem_cons_of_mem d hx))

theorem incMatch_some {l m r : List Char} (h : incMatch l = some (m, r)) :
    l = m ++ r ∧ specIncidentToken m ∧ boundaryAfter r = true := by
  match l with
  | [] => simp [incMatch] at h
  | [c1] => simp [incMatch] at h
  | [c1, c2] => simp [incMatch] at h
  | c1 :: c2 :: c3 :: rest =>
    simp only [incMatch] at h
    split at h
    · rename_i hinc
      by_cases hd : rest.head? = some '-'
      · rw [if_pos hd, if_pos hd] at h
        split at h
        · rename_i hcond
          simp only [Option.some.injEq, Prod.mk.injEq] at h
          obtain ⟨hm, hr⟩ := h
          subst hm
          subst hr
          have hrest : rest = '-' :: rest.tail := by
            cases rest with
            | nil => simp at hd
            | cons a t =>
              simp only [List.head?_cons, Option.some.injEq] at hd
              rw [hd]
              rfl
          refine ⟨?_, ?_, hcond.2.2⟩
          · have hsplit : rest.tail.takeWhile Char.isDigit ++
                rest.tail.drop
                  (rest.tail.takeWhile Char.isDigit).length = rest.tail := by
              rw [drop_takeWhile_length]
              exact List.takeWhile_append_dropWhile _ _
            conv_lhs => rw [hrest]
            simp only [List.cons_append, List.cons.injEq, true_and,
              List.singleton_append, List.append_assoc]
            rw [hsplit]
            simp
          · refine ⟨c1, c2, c3, ['-'], rest.tail.takeWhile Char.isDigit,
              by simp, hinc.1, hinc.2.1, hinc.2.2, Or.inr rfl,
              fun x hx => List.mem_takeWhile_imp hx, hcond.1, hcond.2.1⟩
        · simp at h
      · rw [if_neg hd, if_neg hd] at h
        split at h
        · rename_i hcond
          simp only [Option.some.injEq, Prod.mk.injEq] at h
          obtain ⟨hm, hr⟩ := h
          subst hm
          subst hr
          refine ⟨?_, ?_, hcond.2.2⟩
          · have hsplit : rest.takeWhile Char.isDigit ++
                rest.drop (rest.takeWhile Char.isDigit).length = rest := by
              rw [drop_takeWhile_length]
              exact List.takeWhile_append_dropWhile _ _
            simp only [List.cons_append, List.cons.injEq, true_and,
              List.nil_append]
            rw [hsplit]
          · refine ⟨c1, c2, c3, [], rest.takeWhile Char.isDigit,
              by simp, hinc.1, hinc.2.1, hinc.2.2, Or.inl rfl,
              fun x hx => List.mem_takeWhile_imp hx, hcond.1, hcond.2.1⟩
        · simp at h
    · simp at h

theorem incMatch_complete {m post : List Char} (hm : specIncidentToken m)
    (hb : boundaryAfter post = true) :
    incMatch (m ++ post) = some (m, post) := by
  rcases hm with ⟨c1, c2, c3, dash, ds, rfl, h1, h2, h3, hdash, hds, h4, h7⟩
  have hds_ne : ds ≠ [] := by
    intro he
    rw [he] at h4
    simp at h4
  have hpost : post.head? = none ∨
      ∃ c, post.head? = some c ∧ Char.isDigit c = false := by
    cases post with
    | nil => exact Or.inl rfl
    | cons c t =>
      refine Or.inr ⟨c, rfl, ?_⟩
      simp only [boundaryAfter, Bool.not_eq_true'] at hb
      cases hdig : c.isDigit
      · rfl
      · rw [isDigit_wordChar hdig] at hb
        exact absurd hb (by simp)
  have htake : (ds ++ post).takeWhile Char.isDigit = ds :=
    takeWhile_append_stop _ _ _ hds hpost
  rcases hdash with rfl | rfl
  · have hshape : (c1 :: c2 :: c3 :: ([] ++ ds)) ++ post =
        c1 :: c2 :: c3 :: (ds ++ post) := by simp
    rw [hshape]
    simp only [incMatch]
    rw [if_pos ⟨h1, h2, h3⟩]
    have hhead : ¬((ds ++ post).head? = some '-') := by
      cases ds with
      | nil => exact absurd rfl hds_ne
      | cons d0 t =>
        simp only [List.cons_append, List.head?_cons, Option.some.injEq]
        intro hcon
        exact isDigit_ne_dash (hds d0 (List.mem_cons_self d0 t)) hcon
    rw [if_neg hhead, if_neg hhead, htake]
    have hdrop : (ds ++ post).drop ds.length = post := List.drop_left ds post
    rw [hdrop]
    rw [if_pos ⟨h4, h7, hb⟩]
  · have hshape : (c1 :: c2 :: c3 :: (['-'] ++ ds)) ++ post =
        c1 :: c2 :: c3 :: ('-' :: (ds ++ post)) := by simp
    rw [hshape]
    simp only [incMatch]
    rw [if_pos ⟨h1, h2, h3⟩]
    have hhead : ('-' :: (ds ++ post)).head? = some '-' := rfl
    rw [if_pos hhead, if_pos hhead]
    have htail : ('-' :: (ds ++ post)).tail = ds ++ post := rfl
    rw [htail, htake]
    have hdrop : (ds ++ post).drop ds.length = post := List.drop_left ds post
    rw [hdrop]
    rw [if_pos ⟨h4, h7, hb⟩]

/-- Whether the character preceding the current scan position (the last
character of the consumed prefix) is a word character. -/
def prevWordOf (pre : List Char) : Bool :=
  match pre.getLast? with
  | none => false
  | some p => wordChar p

theorem prevWordOf_append_singleton (pre : List Char) (c : Char) :
    prevWordOf (pre ++ [c]) = wordChar c := by
  simp [prevWordOf, List.getLast?_concat]

theorem prevWordOf_append (pre l : List Char) (hl : l ≠ []) :
    prevWordOf (pre ++ l) = prevWordOf l := by
  simp [prevWordOf, List.getLast?_append_of_ne_nil pre hl]

theorem prevWordOf_false_boundary {pre : List Char}
    (h : prevWordOf pre = false) :
    pre = [] ∨ ∃ p, pre.getLast? = some p ∧ wordChar p = false := by
  cases hp : pre.getLast? with
  | none =>
    left
    cases pre with
    | nil => rfl
    | cons a t => simp [List.getLast?_eq_some_iff] at hp
  | some p =>
    right
    refine ⟨p, rfl, ?_⟩
    simpa [prevWordOf, hp] using h

theorem boundaryAfter_cases {post : List Char} (h : boundaryAfter post = true) :
    post = [] ∨ ∃ c, post.head? = some c ∧ wordChar c = false := by
  cases post with
  | nil => exact Or.inl rfl
  | cons c t =>
    right
    refine ⟨c, rfl, ?_⟩
    simpa [boundaryAfter, Bool.not_eq_true'] using h

theorem scanIncFuel_sound :
    ∀ (fuel : Nat) (pre l m : List Char),
      l.length ≤ fuel →
      m ∈ scanIncFuel fuel (prevWordOf pre) l →
      specMatchIn (pre ++ l) m := by
  intro fuel
  induction fuel with
  | zero =>
    intro pre l m hlen hmem
    simp [scanIncFuel] at hmem
  | succ fuel ih =>
    intro pre l m hlen hmem
    cases l with
    | nil => simp [scanIncFuel] at hmem
    | cons c rest =>
      rw [scanIncFuel] at hmem
      have hlen2 : rest.length ≤ fuel := by
        simp only [List.length_cons] at hlen
        omega
      by_cases hpw : prevWordOf pre = true
      · rw [if_pos hpw] at hmem
        have hrec := ih (pre ++ [c]) rest m hlen2
          (by rw [prevWordOf_append_singleton]; exact hmem)
        simpa [List.append_assoc] using hrec
      · have hpwf : prevWordOf pre = false := by
          simpa using hpw
        rw [if_neg (by simp [hpwf])] at hmem
        cases hminc : incMatch (c :: rest) with
        | none =>
          rw [hminc] at hmem
          have hrec := ih (pre ++ [c]) rest m hlen2
            (by rw [prevWordOf_append_singleton]; exact hmem)
          simpa [List.append_assoc] using hrec
        | some pr =>
          obtain ⟨m0, r3⟩ := pr
          obtain ⟨heq, htok0, hba0⟩ := incMatch_some hminc
          rw [hminc] at hmem
          rcases List.mem_cons.mp hmem with rfl | hmem2
          · refine ⟨htok0, pre, r3, ?_, prevWordOf_false_boundary hpwf,
              boundaryAfter_cases hba0⟩
            rw [heq, List.append_assoc]
          · obtain ⟨dd, hdd, hddig⟩ := specIncidentToken_last_digit htok0
            have hm0_ne : m0 ≠ [] := specIncidentToken_ne_nil htok0
            have hlen3 : r3.length ≤ fuel := by
              have := congrArg List.length heq
              simp only [List.length_cons, List.length_append] at this
              have hpos : 1 ≤ m0.length := by
                cases m0 with
                | nil => exact absurd rfl hm0_ne
                | cons a t => simp
              omega
            have hpw2 : prevWordOf (pre ++ m0) = true := by
              rw [prevWordOf_append pre m0 hm0_ne]
              simp [prevWordOf, hdd, isDigit_wordChar hddig]
            have hrec := ih (pre ++ m0) r3 m hlen3 (by rw [hpw2]; exact hmem2)
            have hshape : (pre ++ m0) ++ r3 = pre ++ (c :: rest) := by
              rw [List.append_assoc, ← heq]
            rwa [hshape] at hrec

theorem scanIncFuel_complete :
    ∀ (fuel : Nat) (l : List Char) (pw : Bool) (mid m post : List Char),
      l.length ≤ fuel →
      specIncidentToken m →
      l = mid ++ m ++ post →
      (mid = [] → pw = false) →
      (∀ p, mid.getLast? = some p → wordChar p = false) →
      boundaryAfter post = true →
      m ∈ scanIncFuel fuel pw l := by
  intro fuel
  induction fuel with
  | zero =>
    intro l pw mid m post hlen htok hl _ _ _
    have hl0 : l = [] := by
      cases l with
      | nil => rfl
      | cons a t => simp at hlen
    rw [hl0] at hl
    have : m = [] := by
      rcases List.append_eq_nil.mp
        (List.append_eq_nil.mp hl.symm).1 with ⟨_, h2⟩
      exact h2
    exact absurd this (specIncidentToken_ne_nil htok)
  | succ fuel ih =>
    intro l pw mid m post hlen htok hl hmidnil hlast hba
    cases l with
    | nil =>
      have : m = [] := by
        rcases List.append_eq_nil.mp
          (List.append_eq_nil.mp hl.symm).1 with ⟨_, h2⟩
        exact h2
      exact absurd this (specIncidentToken_ne_nil htok)
    | cons c rest =>
      have hlen2 : rest.length ≤ fuel := by
        simp only [List.length_cons] at hlen
        omega
      rw [scanIncFuel]
      cases mid with
      | nil =>
        have hpwf : pw = false := hmidnil rfl
        have hl2 : c :: rest = m ++ post := by simpa using hl
        rw [if_neg (by simp [hpwf])]
        rw [hl2, incMatch_complete htok hba]
        exact List.mem_cons_self m _
      | cons d mid' =>
        have hl3 : c :: rest = d :: (mid' ++ m ++ post) := by simpa using hl
        have hcd : c = d := (List.cons.injEq _ _ _ _).mp hl3 |>.1
        have hrest : rest = mid' ++ m ++ post :=
          (List.cons.injEq _ _ _ _).mp hl3 |>.2
        have hstep : m ∈ scanIncFuel fuel (wordChar c) rest := by
          refine ih rest (wordChar c) mid' m post hlen2 htok hrest ?_ ?_ hba
          · intro hmid'
            subst hmid'
            have : ([d] : List Char).getLast? = some d := rfl
            rw [hcd]
            exact hlast d this
          · intro p hp
            have hmid'_ne : mid' ≠ [] := by
              intro h0
              rw [h0] at hp
              simp at hp
            have : (d :: mid').getLast? = some p := by
              have e : (d :: mid') = [d] ++ mid' := rfl
              rw [e, List.getLast?_append_of_ne_nil [d] hmid'_ne]
              exact hp
            exact hlast p this
        by_cases hpw : pw = true
        · rw [if_pos hpw]
          exact hstep
        · rw [if_neg hpw]
          cases hminc : incMatch (c :: rest) with
          | none => exact hstep
          | some pr =>
            obtain ⟨m0, r3⟩ := pr
            obtain ⟨heq, htok0, hba0⟩ := incMatch_some hminc
            have hm0_ne : m0 ≠ [] := specIncidentToken_ne_nil htok0
            have hm_ne : m ≠ [] := specIncidentToken_ne_nil htok
            have hpre_m0 : m0 <+: c :: rest := ⟨r3, heq.symm⟩
            have hpre_mid : (d :: mid') <+: c :: rest :=
              ⟨m ++ post, by rw [hl3]; simp⟩
            rcases lt_trichotomy (d :: mid').length m0.length with
              hlt | heqlen | hgt
            · -- the token would start strictly inside the emitted match
              exfalso
              obtain ⟨t, ht⟩ :=
                List.prefix_of_prefix_length_le hpre_mid hpre_m0
                  (le_of_lt hlt)
              have ht_ne : t ≠ [] := by
                intro h0
                rw [h0, List.append_nil] at ht
                rw [ht] at hlt
                exact lt_irrefl _ hlt
              have hcancel : t ++ r3 = m ++ post := by
                have e1 : (d :: mid') ++ (t ++ r3) =
                    (d :: mid') ++ (m ++ post) := by
                  rw [← List.append_assoc, ht, ← heq, hl3]
                  simp
                exact List.append_cancel_left e1
              obtain ⟨cm, hcm, hcmi⟩ := specIncidentToken_head htok
              have hth : t.head? = some cm := by
                have e2 : (t ++ r3).head? = t.head? :=
                  List.head?_append_of_ne_nil t ht_ne
                have e3 : (m ++ post).head? = m.head? :=
                  List.head?_append_of_ne_nil m hm_ne
                rw [hcancel, e3, hcm] at e2
                exact e2.symm
              have ht2 : m0.drop (d :: mid').length = t := by
                rw [← ht]
                exact List.drop_left (d :: mid') t
              refine specIncidentToken_interior htok0 (d :: mid').length
                (by simp) cm ?_ hcmi
              rw [ht2]
              exact hth
            · -- the token would start right after the emitted match
              exfalso
              have hmid_eq : (d :: mid') = m0 := by
                have e1 : (d :: mid') ++ (m ++ post) = m0 ++ r3 := by
                  rw [← heq, hl3]
                  simp
                exact (List.append_inj e1 heqlen).1
              obtain ⟨dd, hdd, hddig⟩ := specIncidentToken_last_digit htok0
              have hlastmid : (d :: mid').getLast? = some dd := by
                rw [hmid_eq]
                exact hdd
              have := hlast dd hlastmid
              rw [isDigit_wordChar hddig] at this
              exact absurd this (by simp)
            · -- the token lies beyond the emitted match
              obtain ⟨mid2, hmid2⟩ :=
                List.prefix_of_prefix_length_le hpre_m0 hpre_mid
                  (le_of_lt hgt)
              have hmid2_ne : mid2 ≠ [] := by
                intro h0
                rw [h0, List.append_nil] at hmid2
                rw [hmid2] at hgt
                exact lt_irrefl _ hgt
              have hr3 : r3 = mid2 ++ m ++ post := by
                have e1 : m0 ++ r3 = m0 ++ (mid2 ++ m ++ post) := by
                  rw [← heq, hl3]
                  have e2 : m0 ++ (mid2 ++ m ++ post) =
                      (m0 ++ mid2) ++ (m ++ post) := by simp
                  rw [e2, hmid2]
                  simp
                exact List.append_cancel_left e1
              have hlen3 : r3.length ≤ fuel := by
                have := congrArg List.length heq
                simp only [List.length_cons, List.length_append] at this
                have hpos : 1 ≤ m0.length := by
                  cases m0 with
                  | nil => exact absurd rfl hm0_ne
                  | cons a t => simp
                omega
              refine List.mem_cons_of_mem m0
                (ih r3 true mid2 m post hlen3 htok hr3
                  (fun h0 => absurd h0 hmid2_ne) ?_ hba)
              intro p hp
              have : (d :: mid').getLast? = some p := by
                rw [← hmid2, List.getLast?_append_of_ne_nil m0 hmid2_ne]
                exact hp
              exact hlast p this

/-- C8: `extract_incident_ids` returns exactly the set of substrings of
the input matching `INC`, optional `-`, then 4-7 digits (the `INC`
case-insensitive) delimited by word boundaries, with duplicates removed:
membership in the output coincides with the existence of such an
occurrence, and the output has no duplicates. -/
theorem C8_extract_incident_ids (text x : String) :
    (x ∈ extract_incident_ids text ↔ specMatchIn text.data x.data) ∧
    (extract_incident_ids text).Nodup := by
  refine ⟨?_, List.nodup_dedup _⟩
  simp only [extract_incident_ids]
  constructor
  · intro hx
    rw [List.mem_dedup, List.mem_map] at hx
    obtain ⟨mm, hmm, hmk⟩ := hx
    have hpw : prevWordOf [] = false := rfl
    have hs := scanIncFuel_sound text.data.length [] text.data mm
      (le_refl _) (by rw [hpw]; exact hmm)
    have hxd : x.data = mm := by
      rw [← hmk]
    simpa [hxd] using hs
  · intro hx
    obtain ⟨htok, pre, post, hsx, hpre, hpost⟩ := hx
    rw [List.mem_dedup, List.mem_map]
    refine ⟨x.data, ?_, ?_⟩
    · show x.data ∈ scanIncFuel text.data.length false text.data
      refine scanIncFuel_complete text.data.length text.data false pre
        x.data post (le_refl _) htok hsx (fun _ => rfl) ?_ ?_
      · intro p hp
        rcases hpre with rfl | ⟨p2, hp2, hw⟩
        · simp at hp
        · rw [hp2] at hp
          injection hp with hpp
          rw [hpp] at hw
          exact hw
      · rcases hpost with rfl | ⟨c2, hc2, hw⟩
        · rfl
        · cases post with
          | nil => simp at hc2
          | cons c t =>
            simp only [List.head?_cons, Option.some.injEq] at hc2
            subst hc2
            simp [boundaryAfter, hw]
    · rfl

/-- Witness for C8: the extractor finds `INC0001234` in a concrete text,
and hence the text contains a boundary-delimited occurrence. -/
theorem C8_extract_incident_ids_witness :
    specMatchIn ("see INC0001234 now").data ("INC0001234").data :=
  ((C8_extract_incident_ids "see INC0001234 now" "INC0001234").1).mp
    (by decide)

example : extract_incident_ids
    ("INC0012345 and inc-1234, INCIDENT INC123 INC12345678") =
    ["INC0012345", "inc-1234"] := by decide

example : extract_incident_ids ("xINC1234 INC1234x INC1234INC5678") = [] := by
  decide

example : extract_incident_ids ("see INC0001234, also INC0001234 again") =
    ["INC0001234"] := by decide

example : extract_incident_ids ("_INC1234 a-INC1234 9INC1234") =
    ["INC1234"] := by decide
